import Mathlib

/-
  Verification development for the small statistical/ML computation library of
  the data-table-analyzer repository: the ID3 decision-tree classifier, the
  Gini-based random forest, the ridge linear regression, and the Holt
  exponential-smoothing forecaster.  Each JavaScript class is shallowly
  embedded: numbers become exact rationals (or reals where the source takes a
  square root or a base-2 logarithm), nullable fields become Option, thrown
  errors become Except, and the unseeded random sources become explicit
  function parameters.
-/

set_option maxHeartbeats 1000000

/-! ## Shared helpers -/

/-- First-occurrence deduplication, the model of the JS `[...new Set(xs)]`
idiom: keeps the first occurrence of every value, in encounter order. -/
def uniqueList {α : Type} [DecidableEq α] : List α → List α
  | [] => []
  | a :: as => a :: uniqueList (as.filter (fun x => x ≠ a))
termination_by l => l.length
decreasing_by
  simp only [List.length_cons]
  exact Nat.lt_succ_of_le (List.length_filter_le _ _)

/-- Label counts in first-occurrence order: the model of the JS pattern
`counts[label] = (counts[label] || 0) + 1` over an insertion-ordered object. -/
def countsList {α : Type} [DecidableEq α] (l : List α) : List (α × Nat) :=
  (uniqueList l).map (fun v => (v, l.count v))

/-! ## Holt exponential smoothing (HoltForecaster) -/

namespace Holt

/-- The mutable fields of the JS `HoltForecaster` object.  `level` and `trend`
are `null` before `fit` (they are always set together by `fit`, so the
two-`Option` representation has the same reachable states as the source). -/
structure HoltState where
  alpha : ℚ
  beta : ℚ
  level : Option ℚ
  trend : Option ℚ
  fitted : List ℚ
  residuals : List ℚ
  trainData : List ℚ
  deriving Repr, DecidableEq

/-- The `HoltForecaster` constructor with its default smoothing parameters. -/
def holtInit (alpha : ℚ := 3/10) (beta : ℚ := 1/10) : HoltState :=
  { alpha := alpha, beta := beta, level := none, trend := none,
    fitted := [], residuals := [], trainData := [] }

/-- One iteration of the smoothing loop in `fit`: state is
(level, trend, fitted, residuals). -/
def fitStep (alpha beta : ℚ) (s : ℚ × ℚ × List ℚ × List ℚ) (v : ℚ) :
    ℚ × ℚ × List ℚ × List ℚ :=
  let lvl := s.1
  let trd := s.2.1
  let newLevel := alpha * v + (1 - alpha) * (lvl + trd)
  let newTrend := beta * (newLevel - lvl) + (1 - beta) * trd
  let f := lvl + trd
  (newLevel, newTrend, s.2.2.1 ++ [f], s.2.2.2 ++ [v - f])

/-- `HoltForecaster.fit`: throws when fewer than two observations are given,
otherwise initialises level/trend from the first two values and runs the
smoothing recursion over `values[1..]`. -/
def holtFit (h : HoltState) (values : List ℚ) : Except String HoltState :=
  match values with
  | v0 :: v1 :: rest =>
    let st := (v1 :: rest).foldl (fitStep h.alpha h.beta)
      (v0, v1 - v0, [v0], [v0 - v0])
    Except.ok { h with level := some st.1, trend := some st.2.1,
                       fitted := st.2.2.1, residuals := st.2.2.2,
                       trainData := values }
  | _ => Except.error ("Need at least 2 data points")

/-- `HoltForecaster.forecast`, in result-and-state style (the method performs
no assignment, so the state out is the state in). -/
def holtForecast (h : HoltState) (steps : Nat) :
    Except String (List ℚ) × HoltState :=
  match h.level, h.trend with
  | some l, some t =>
    (Except.ok ((List.range steps).map (fun (i : ℕ) => max 0 (l + ((i : ℚ) + 1) * t))), h)
  | _, _ => (Except.error ("Model not fitted"), h)

/-- One confidence-interval entry. -/
structure CI where
  prediction : ℝ
  lower : ℝ
  upper : ℝ

/-- Mean squared residual used by `getConfidenceIntervals`. -/
def holtMSE (h : HoltState) : ℚ :=
  ((h.residuals.map (fun r => r * r)).sum) / h.residuals.length

/-- The z-score selection of `getConfidenceIntervals`: only 0.95 and 0.9 are
recognised, anything else falls back to 1.96. -/
def zScore (confidence : ℚ) : ℚ :=
  if confidence = 95/100 then 196/100
  else if confidence = 9/10 then 1645/1000 else 196/100

/-- `HoltForecaster.getConfidenceIntervals`: per step `i` (0-based index into
the forecast list) the uncertainty is `se * sqrt(1 + (i+1) * 0.1)` and the
bounds are `max(0, pred - z*u)` and `pred + z*u`. -/
noncomputable def holtCI (h : HoltState) (steps : Nat) (confidence : ℚ) :
    Except String (List CI) × HoltState :=
  match (holtForecast h steps).1 with
  | Except.error e => (Except.error e, h)
  | Except.ok preds =>
    let se : ℝ := Real.sqrt ((holtMSE h : ℚ) : ℝ)
    let z : ℝ := ((zScore confidence : ℚ) : ℝ)
    (Except.ok (preds.enum.map (fun p =>
      let uncertainty : ℝ := se * Real.sqrt (1 + ((p.1 : ℝ) + 1) * (1/10))
      let pr : ℝ := ((p.2 : ℚ) : ℝ)
      { prediction := pr,
        lower := max 0 (pr - z * uncertainty),
        upper := pr + z * uncertainty })), h)

/-- The statistics object returned by `HoltForecaster.getStats`. -/
structure HoltStats where
  r2 : ℚ
  rmse : ℝ
  mape : ℚ
  samples : Nat
  alpha : ℚ
  beta : ℚ
  lastLevel : Option ℚ
  lastTrend : Option ℚ

/-- `HoltForecaster.getStats` (null when no training data), in
result-and-state style. -/
noncomputable def holtGetStats (h : HoltState) : Option HoltStats × HoltState :=
  if h.trainData = [] then (none, h)
  else
    let values := h.trainData
    let mean := values.sum / values.length
    let ssRes := (h.residuals.map (fun r => r * r)).sum
    let ssTot := (values.map (fun v => (v - mean) ^ 2)).sum
    let r2 := 1 - ssRes / ssTot
    let mape := ((values.zip h.residuals).map (fun p =>
        if p.1 = 0 then 0 else |p.2 / p.1|)).sum
      / ((values.filter (fun v => v ≠ 0)).length) * 100
    (some { r2 := max 0 (min 1 r2),
            rmse := Real.sqrt (((ssRes / values.length : ℚ)) : ℝ),
            mape := mape,
            samples := values.length,
            alpha := h.alpha, beta := h.beta,
            lastLevel := h.level, lastTrend := h.trend }, h)

/-- The confidence-interval list of a state, defaulting to `[]` on error. -/
noncomputable def ciList (h : HoltState) (steps : Nat) (confidence : ℚ) :
    List CI :=
  ((holtCI h steps confidence).1).toOption.getD []

/-- Interval width at 0-based index `i` of the interval list. -/
noncomputable def ciWidth (h : HoltState) (steps : Nat) (confidence : ℚ)
    (i : Nat) : ℝ :=
  let ci := (ciList h steps confidence).getD i { prediction := 0, lower := 0, upper := 0 }
  ci.upper - ci.lower

end Holt

/-! ## ID3 decision tree (DecisionTreeClassifier, part_006) -/

namespace ID3

/-- A data row: a total mapping from column name to string value (the model of
a JS record; an absent column reads as some fixed string). -/
def Row : Type := String → String

/-- Tree nodes, the algebraic form of the `{type: 'leaf' | 'node', ...}`
objects built by `buildTree`.  A leaf distribution is `none` exactly when the
source leaf carries no `distribution` field (the empty-data leaf); entries are
(label, count, percentage). -/
inductive ID3Tree : Type where
  | leaf (label : String) (confidence : ℚ) (samples : Nat)
      (distribution : Option (List (String × Nat × ℚ)))
  | node (feature : String) (gain : ℝ) (samples : Nat)
      (children : List (String × ID3Tree)) (defaultPrediction : String)

/-- Shannon entropy of the target column: `-Σ p log2 p` over observed label
proportions (0 for an empty subset, as in the source). -/
noncomputable def entropy (data : List Row) (tgt : String) : ℝ :=
  -(((countsList (data.map (fun r => r tgt))).map (fun p =>
      ((p.2 : ℝ) / (data.length : ℝ)) *
        Real.logb 2 ((p.2 : ℝ) / (data.length : ℝ)))).sum)

/-- `calculateInformationGain`: parent entropy minus the value-partition
weighted entropy (partition cells by exact categorical equality). -/
noncomputable def infoGain (data : List Row) (f : String) (tgt : String) : ℝ :=
  entropy data tgt -
    ((uniqueList (data.map (fun r => r f))).map (fun v =>
      let g := data.filter (fun r => r f = v)
      ((g.length : ℝ) / (data.length : ℝ)) * entropy g tgt)).sum

open Classical in
/-- `findBestFeature`: fold keeping the strictly larger gain (the JS
`bestGain = -Infinity` start means the first candidate always wins, modelled
with the `none` starting accumulator). -/
noncomputable def findBestFeature (data : List Row) (feats : List String)
    (tgt : String) : Option (String × ℝ) :=
  feats.foldl (fun acc f =>
    let g := infoGain data f tgt
    match acc with
    | none => some (f, g)
    | some bg => if g > bg.2 then some (f, g) else acc) none

/-- `getMajorityClass`: (label, count, total); the fold with a strict `>`
starting from count 0 returns the first label attaining the maximum count,
as the insertion-ordered JS loop does (label is `""` for empty data, where the
source would yield `null`). -/
def getMajorityClass (data : List Row) (tgt : String) : String × Nat × Nat :=
  let best := (countsList (data.map (fun r => r tgt))).foldl
    (fun b p => if p.2 > b.2 then p else b) ("", 0)
  (best.1, best.2, data.length)

/-- `getClassDistribution`: per label its count and percentage (the source
formats the percentage with `toFixed(1)`; the exact rational is kept here). -/
def getClassDistribution (data : List Row) (tgt : String) :
    List (String × Nat × ℚ) :=
  (countsList (data.map (fun r => r tgt))).map (fun p =>
    (p.1, p.2, (p.2 : ℚ) / (data.length : ℚ) * 100))

open Classical in
/-- `buildTree`, with the recursion depth budget made explicit: `fuel` stands
for `maxDepth - depth`, so the `depth >= maxDepth` stop of the source is the
`fuel = 0` case.  All other stopping rules (empty data, pure subset, no
features, non-positive best gain) appear in source order. -/
noncomputable def buildTreeAux (tgt : String) :
    Nat → List Row → List String → ID3Tree
  | 0, data, _ =>
    if data.length = 0 then ID3Tree.leaf ("Unknown") 0 0 none
    else
      let m := getMajorityClass data tgt
      ID3Tree.leaf m.1 ((m.2.1 : ℚ) / (m.2.2 : ℚ)) m.2.2
        (some (getClassDistribution data tgt))
  | fuel + 1, data, feats =>
    if data.length = 0 then ID3Tree.leaf ("Unknown") 0 0 none
    else
      let m := getMajorityClass data tgt
      let conf : ℚ := (m.2.1 : ℚ) / (m.2.2 : ℚ)
      if conf = 1 ∨ feats = [] then
        ID3Tree.leaf m.1 conf m.2.2 (some (getClassDistribution data tgt))
      else
        match findBestFeature data feats tgt with
        | none => ID3Tree.leaf m.1 conf m.2.2 (some (getClassDistribution data tgt))
        | some bf =>
          if bf.2 ≤ 0 then
            ID3Tree.leaf m.1 conf m.2.2 (some (getClassDistribution data tgt))
          else
            let featureValues := uniqueList (data.map (fun r => r bf.1))
            let remaining := feats.filter (fun f => f ≠ bf.1)
            ID3Tree.node bf.1 bf.2 m.2.2
              (featureValues.map (fun v =>
                (v, buildTreeAux tgt fuel
                      (data.filter (fun r => r bf.1 = v)) remaining)))
              m.1

/-- `buildTree(data, features, target, 0, maxDepth)`. -/
noncomputable def buildTree (data : List Row) (feats : List String)
    (tgt : String) (maxDepth : Nat) : ID3Tree :=
  buildTreeAux tgt maxDepth data feats

/-- The record returned by `predict`. -/
structure Pred where
  prediction : String
  confidence : ℚ
  distribution : Option (List (String × Nat × ℚ))
  deriving Repr, DecidableEq

mutual

/-- `predict(tree, sample)`: walk by equality-matching the sample value
against the branch keys; the fallback for an unseen branch value is the stored
`defaultPrediction` with confidence 0.5 and an empty distribution. -/
def predictID3 (s : Row) : ID3Tree → Pred
  | ID3Tree.leaf lab conf _ dist =>
    { prediction := lab, confidence := conf, distribution := dist }
  | ID3Tree.node f _ _ ch dflt => predictChildren s (s f) ch dflt

/-- The branch-key lookup of `predict` (`tree.children[featureValue]`). -/
def predictChildren (s : Row) (v : String) :
    List (String × ID3Tree) → String → Pred
  | [], dflt => { prediction := dflt, confidence := 1/2, distribution := some [] }
  | c :: rest, dflt =>
    if c.1 = v then predictID3 s c.2 else predictChildren s v rest dflt

end

/-- `predictTopN`: entries of the resolved distribution sorted by descending
percentage, truncated to `n`; single fallback entry when the distribution is
missing or empty. -/
def predictTopN (s : Row) (t : ID3Tree) (n : Nat) : List (String × ℚ) :=
  let r := predictID3 s t
  match r.distribution with
  | none => [(r.prediction, r.confidence * 100)]
  | some [] => [(r.prediction, r.confidence * 100)]
  | some d =>
    ((d.map (fun p => (p.1, p.2.2))).mergeSort
      (fun a b => decide (b.2 ≤ a.2))).take n

/-- `trainTestSplit` with the random shuffle made an explicit parameter:
the split index is `floor(length * (1 - testPortion))`. -/
def trainTestSplit (shuffled : List Row) (n : Nat) (testPortion : ℚ) :
    List Row × List Row :=
  let splitIndex := Nat.floor ((n : ℚ) * (1 - testPortion))
  (shuffled.take splitIndex, shuffled.drop splitIndex)

/-- `calculateAccuracy`: exact-match rate of `predict` over the test rows
(an empty test set gives `0/0 = 0` here where JS would give NaN). -/
def calcAccuracy (t : ID3Tree) (testData : List Row) (tgt : String) : ℚ :=
  ((testData.filter (fun r => (predictID3 r t).prediction = r tgt)).length : ℚ)
    / (testData.length : ℚ)

/-- The per-node contributions `gain * samples` accumulated by
`getFeatureImportance`, flattened in preorder. -/
noncomputable def impContribs : ID3Tree → List (String × ℝ)
  | ID3Tree.leaf _ _ _ _ => []
  | ID3Tree.node f g s ch _ =>
    (f, g * (s : ℝ)) ::
      (ch.attach.map (fun c => impContribs c.1.2)).flatten
decreasing_by
  obtain ⟨⟨k, t⟩, hmem⟩ := c
  have h1 := List.sizeOf_lt_of_mem hmem
  simp only [ID3Tree.node.sizeOf_spec, Prod.mk.sizeOf_spec] at h1 ⊢
  omega

open Classical in
/-- The normalised feature importance of the trained classifier (gain·samples
totals per feature, normalised to sum 1 when the total is positive). -/
noncomputable def featImportance (t : ID3Tree) : String → ℝ :=
  let contribs := impContribs t
  let total := (contribs.map (fun p => p.2)).sum
  fun f =>
    let raw := ((contribs.filter (fun p => p.1 = f)).map (fun p => p.2)).sum
    if total > 0 then raw / total else 0

/-- The mutable fields of the JS `DecisionTreeClassifier`. -/
structure DTModel where
  maxDepth : Nat
  tree : Option ID3Tree
  features : List String
  targetColumn : String
  accuracy : ℚ
  featureImportance : String → ℝ
  trainSize : Nat
  testSize : Nat

/-- The `DecisionTreeClassifier` constructor (tree `null`, stats zeroed). -/
def mkDT (maxDepth : Nat := 5) : DTModel :=
  { maxDepth := maxDepth, tree := none, features := [], targetColumn := "",
    accuracy := 0, featureImportance := fun _ => 0, trainSize := 0,
    testSize := 0 }

/-- `DecisionTreeClassifier.train`, with the random 80/20 shuffle an explicit
`shuffle` parameter. -/
noncomputable def dtTrain (m : DTModel) (shuffle : List Row → List Row)
    (data : List Row) (feats : List String) (tgt : String) : DTModel :=
  let split := trainTestSplit (shuffle data) data.length (2/10)
  let t := buildTree split.1 feats tgt m.maxDepth
  { m with features := feats, targetColumn := tgt,
           trainSize := split.1.length, testSize := split.2.length,
           tree := some t,
           accuracy := calcAccuracy t split.2 tgt,
           featureImportance := featImportance t }

/-- `DecisionTreeClassifier.predict`: throws before `train`. -/
def dtPredict (m : DTModel) (s : Row) : Except String Pred :=
  match m.tree with
  | none => Except.error ("Model not trained yet")
  | some t => Except.ok (predictID3 s t)

/-- `DecisionTreeClassifier.predictTopN`: throws before `train`. -/
def dtPredictTopN (m : DTModel) (s : Row) (n : Nat) :
    Except String (List (String × ℚ)) :=
  match m.tree with
  | none => Except.error ("Model not trained yet")
  | some t => Except.ok (predictTopN s t n)

/-- The structural invariant of claim C4 for ID3 trees: every decision node
has at least two children, addressed by pairwise-distinct branch keys, and the
property holds recursively (leaves carry no children by construction, so
"leaf iff childless" is enforced by the type). -/
inductive Invariant : ID3Tree → Prop where
  | leaf : ∀ lab conf s d, Invariant (ID3Tree.leaf lab conf s d)
  | node : ∀ f g s ch dflt, 2 ≤ ch.length → (ch.map Prod.fst).Nodup →
      (∀ p ∈ ch, Invariant p.2) → Invariant (ID3Tree.node f g s ch dflt)

/-- `DepthLE t n`: every chain of decision nodes in `t` has length at most
`n` (leaves may sit at the final level). -/
inductive DepthLE : ID3Tree → Nat → Prop where
  | leaf : ∀ lab conf s d n, DepthLE (ID3Tree.leaf lab conf s d) n
  | node : ∀ f g s ch dflt n, (∀ p ∈ ch, DepthLE p.2 n) →
      DepthLE (ID3Tree.node f g s ch dflt) (n + 1)

end ID3

/-! ## Random forest (priceSensitivity.js) -/

namespace RF

/-- Gini-tree nodes (`TreeNode` in the source): `isLeaf` with a prediction, or
an internal node with a feature index, a numeric threshold and the two
children (the `<= threshold` side left, the `> threshold` side right).  The
source invariant "a node is a leaf iff it has no children" is enforced by the
constructors. -/
inductive RTree : Type where
  | leaf (prediction : String)
  | node (featureIndex : Nat) (threshold : ℚ) (left right : RTree)
  deriving Repr, DecidableEq

/-- `gini(y) = 1 - Σ p²` over the label counts. -/
def gini (y : List String) : ℚ :=
  1 - ((countsList y).map (fun p => ((p.2 : ℚ) / (y.length : ℚ)) ^ 2)).sum

/-- `majorityClass`: the first label attaining the maximal count (stable
descending sort of insertion-ordered entries, then the head); `""` stands for
the crash the source would have on an empty list, which is unreachable. -/
def majorityClassR (y : List String) : String :=
  match countsList y with
  | [] => ""
  | p :: ps => (ps.foldl (fun b q => if q.2 > b.2 then q else b) p).1

/-- Split the (row, label) pairs of a data set on `row[f] <= t` (the source
collects left/right index lists in row order; `List.partition` preserves
order the same way). -/
def splitPairs (X : List (List ℚ)) (y : List String) (f : Nat) (t : ℚ) :
    List (List ℚ × String) × List (List ℚ × String) :=
  (X.zip y).partition (fun p => p.1.getD f 0 ≤ t)

/-- A candidate split of `findBestSplit`. -/
structure Cand where
  f : Nat
  thr : ℚ
  gain : ℚ
  deriving Repr, DecidableEq

/-- The candidate thresholds for a feature: midpoints between consecutive
sorted unique values. -/
def thresholds (vals : List ℚ) : List ℚ :=
  let u := (uniqueList vals).mergeSort (fun a b => decide (a ≤ b))
  (List.range (u.length - 1)).map (fun i => (u.getD i 0 + u.getD (i + 1) 0) / 2)

/-- One inner-loop iteration of `findBestSplit`: skip a threshold whose
partition has an empty side, otherwise keep the candidate when its gain
strictly beats the best so far (`-Infinity` start modelled by `none`). -/
def stepCand (X : List (List ℚ)) (y : List String) (parentG : ℚ) (f : Nat)
    (acc : Option Cand) (t : ℚ) : Option Cand :=
  let s := splitPairs X y f t
  if s.1.length = 0 ∨ s.2.length = 0 then acc
  else
    let lY := s.1.map (fun p => p.2)
    let rY := s.2.map (fun p => p.2)
    let weighted := ((lY.length : ℚ) * gini lY + (rY.length : ℚ) * gini rY)
      / (y.length : ℚ)
    let g := parentG - weighted
    match acc with
    | none => some { f := f, thr := t, gain := g }
    | some c => if g > c.gain then some { f := f, thr := t, gain := g } else acc

/-- `findBestSplit` over the active feature indices. -/
def findBestSplit (X : List (List ℚ)) (y : List String) (idxs : List Nat) :
    Option Cand :=
  idxs.foldl (fun acc f =>
    (thresholds (X.map (fun r => r.getD f 0))).foldl
      (stepCand X y (gini y) f) acc) none

/-- `DecisionTreeClassifier.buildTree` (the Gini tree grown inside the
forest), with the depth budget `fuel = maxDepth - depth` explicit as for the
ID3 tree.  Stopping rules in source order: pure node, depth budget, node too
small, no split found, non-positive gain. -/
def buildTreeR (minSamplesSplit : Nat) (idxs : List Nat) :
    Nat → List (List ℚ) → List String → RTree
  | 0, _, y => RTree.leaf (majorityClassR y)
  | fuel + 1, X, y =>
    if (uniqueList y).length = 1 ∨ y.length < minSamplesSplit then
      RTree.leaf (majorityClassR y)
    else
      match findBestSplit X y idxs with
      | none => RTree.leaf (majorityClassR y)
      | some c =>
        if c.gain ≤ 0 then RTree.leaf (majorityClassR y)
        else
          let s := splitPairs X y c.f c.thr
          RTree.node c.f c.thr
            (buildTreeR minSamplesSplit idxs fuel
              (s.1.map (fun p => p.1)) (s.1.map (fun p => p.2)))
            (buildTreeR minSamplesSplit idxs fuel
              (s.2.map (fun p => p.1)) (s.2.map (fun p => p.2)))

/-- `predictOne`: descend by threshold comparisons to a leaf. -/
def predictOne : RTree → List ℚ → String
  | RTree.leaf p, _ => p
  | RTree.node f t l r, x =>
    if x.getD f 0 ≤ t then predictOne l x else predictOne r x

/-- All leaf predictions of a tree. -/
def treeLabels : RTree → List String
  | RTree.leaf p => [p]
  | RTree.node _ _ l r => treeLabels l ++ treeLabels r

/-- The constructor parameters of `RandomForestClassifier`; `sqrtMode` is the
`maxFeatures === 'sqrt'` flag. -/
structure RFConfig where
  nTrees : Nat
  maxDepth : Nat
  minSamplesSplit : Nat
  sqrtMode : Bool
  deriving Repr, DecidableEq

/-- The `RandomForestClassifier` constructor with its default arguments. -/
def mkRandomForestClassifier (nTrees : Nat := 10) (maxDepth : Nat := 5)
    (minSamplesSplit : Nat := 5) (sqrtMode : Bool := true) : RFConfig :=
  { nTrees := nTrees, maxDepth := maxDepth,
    minSamplesSplit := minSamplesSplit, sqrtMode := sqrtMode }

/-- `Math.ceil(Math.sqrt(n))` for a natural number. -/
def ceilSqrt (n : Nat) : Nat :=
  if Nat.sqrt n * Nat.sqrt n = n then Nat.sqrt n else Nat.sqrt n + 1

/-- The sampling loop of `selectFeatures`: draw `k` indices without
replacement from `avail`, the random choice supplied by `sel` (taken modulo
the current pool size, as `Math.floor(Math.random()*len)` is uniform below
`len`).  On an exhausted pool the source would push `undefined`; the `getD`
default 0 stands for that unreachable case. -/
def selectGo (sel : Nat → Nat) : Nat → Nat → List Nat → List Nat
  | 0, _, _ => []
  | k + 1, i, avail =>
    let idx := sel i % avail.length
    avail.getD idx 0 :: selectGo sel k (i + 1) (avail.eraseIdx idx)

/-- `selectFeatures`: subset size `ceil(sqrt(nFeatures))` in `'sqrt'` mode,
`ceil(nFeatures * 0.7)` otherwise (the exact-rational 7/10 model of the float
constant 0.7). -/
def selectFeatures (sqrtMode : Bool) (sel : Nat → Nat) (nFeatures : Nat) :
    List Nat :=
  let nSelect := if sqrtMode then ceilSqrt nFeatures
    else Nat.ceil ((nFeatures : ℚ) * (7/10))
  selectGo sel nSelect 0 (List.range nFeatures)

/-- The trained forest object: trees paired positionally with their feature
subsets, plus the remembered feature names and class list. -/
structure ForestModel where
  nTrees : Nat
  trees : List RTree
  featureSubsets : List (List Nat)
  featureNames : List String
  classes : List String

/-- `RandomForestClassifier.fit`, the two unseeded random sources explicit:
`boot t i` drives the bootstrap draw `i` of tree `t`, `sel t i` the feature
selection.  Per tree: bootstrap rows with replacement (size = row count),
select the feature subset, project, and grow a Gini tree on the projection
(whose active indices are `0..subset.length-1`). -/
def rfFit (cfg : RFConfig) (boot sel : Nat → Nat → Nat)
    (X : List (List ℚ)) (y : List String) (names : List String) :
    ForestModel :=
  let n := X.length
  let pairs := (List.range cfg.nTrees).map (fun t =>
    let bidx := (List.range n).map (fun i => boot t i % n)
    let bootX := bidx.map (fun i => X.getD i [])
    let bootY := bidx.map (fun i => y.getD i "")
    let subset := selectFeatures cfg.sqrtMode (sel t) (X.headD []).length
    let subsetX := bootX.map (fun row => subset.map (fun f => row.getD f 0))
    (buildTreeR cfg.minSamplesSplit (List.range subset.length) cfg.maxDepth
      subsetX bootY, subset))
  { nTrees := cfg.nTrees,
    trees := pairs.map (fun p => p.1),
    featureSubsets := pairs.map (fun p => p.2),
    featureNames := names,
    classes := uniqueList y }

/-- The per-tree votes cast for a sample (each tree evaluated on its own
feature subset). -/
def rfVotes (m : ForestModel) (x : List ℚ) : List String :=
  (m.trees.zip m.featureSubsets).map (fun p =>
    predictOne p.1 (p.2.map (fun f => x.getD f 0)))

/-- `predictProba` for one row: every known class mapped to
`votes_for_class / tree_count` (zero-vote classes included with 0). -/
def predictProba (m : ForestModel) (x : List ℚ) : List (String × ℚ) :=
  m.classes.map (fun c => (c, ((rfVotes m x).count c : ℚ) / (m.nTrees : ℚ)))

/-- `predict` for one row: the label with the most votes, first-encountered
maximum winning ties. -/
def rfPredictOneRow (m : ForestModel) (x : List ℚ) : String :=
  majorityClassR (rfVotes m x)

/-- `RDepthLE t n`: every chain of decision nodes in `t` has length at most
`n`. -/
inductive RDepthLE : RTree → Nat → Prop where
  | leaf : ∀ p n, RDepthLE (RTree.leaf p) n
  | node : ∀ f t l r n, RDepthLE l n → RDepthLE r n →
      RDepthLE (RTree.node f t l r) (n + 1)

end RF

/-! ## Linear regression (linearRegression.js) -/

namespace LR

/-- A training/prediction record: the optional feature columns (absent
columns are `none`) and the target column `Sales` (ignored by `predict`). -/
structure RegRow where
  Day : Option String
  TimeSlot : Option String
  Rain : Option ℝ
  MinTemp : Option ℝ
  MaxTemp : Option ℝ
  Season : Option String
  Sales : ℝ

/-- The JS `v || d` default: `d` when the field is absent or 0 (0 is falsy). -/
noncomputable def jsOr (v : Option ℝ) (d : ℝ) : ℝ :=
  match v with
  | some x => if x = 0 then d else x
  | none => d

/-- The `encodings.Day` table. -/
def dayEnc : List (String × ℝ) :=
  [("Monday", 0), ("Tuesday", 1), ("Wednesday", 2), ("Thursday", 3),
   ("Friday", 4), ("Saturday", 5), ("Sunday", 6)]

/-- The `encodings.TimeSlot` table. -/
def timeEnc : List (String × ℝ) :=
  [("Morning", 0), ("Afternoon", 1), ("Evening", 2)]

/-- The `encodings.Season` table. -/
def seasonEnc : List (String × ℝ) :=
  [("Winter", 0), ("Spring", 1), ("Summer", 2), ("Autumn", 3), ("Fall", 3)]

/-- The `encodings.X[v] ?? d` lookup (absent key or absent value gives the
documented default code). -/
def encOf (tbl : List (String × ℝ)) (s : Option String) (d : ℝ) : ℝ :=
  ((s.bind (fun v => tbl.lookup v)).getD d)

/-- `featuresToNumeric`: the fixed six-feature numeric encoding. -/
noncomputable def featuresToNumeric (r : RegRow) : List ℝ :=
  [jsOr r.Rain 0, jsOr r.MinTemp 10, jsOr r.MaxTemp 20,
   encOf dayEnc r.Day 3, encOf timeEnc r.TimeSlot 1, encOf seasonEnc r.Season 2]

/-- Per-column means of a feature matrix (columns indexed by the first row,
as in the source). -/
noncomputable def colMeans (X : List (List ℝ)) : List ℝ :=
  (List.range (X.headD []).length).map (fun j =>
    ((X.map (fun row => row.getD j 0)).sum) / (X.length : ℝ))

open Classical in
/-- Per-column standard deviations, a zero deviation defaulted to 1
(`Math.sqrt(variance) || 1`). -/
noncomputable def colStds (X : List (List ℝ)) (means : List ℝ) : List ℝ :=
  (List.range (X.headD []).length).map (fun j =>
    let mean := means.getD j 0
    let variance := ((X.map (fun row => (row.getD j 0 - mean) ^ 2)).sum)
      / (X.length : ℝ)
    if Real.sqrt variance = 0 then 1 else Real.sqrt variance)

/-- Z-score one row against fitted means and deviations. -/
noncomputable def normalizeRow (means stds : List ℝ) (row : List ℝ) : List ℝ :=
  (List.range row.length).map (fun j =>
    (row.getD j 0 - means.getD j 0) / stds.getD j 0)

/-- `transpose`. -/
noncomputable def transpose (m : List (List ℝ)) : List (List ℝ) :=
  (List.range (m.headD []).length).map (fun j => m.map (fun row => row.getD j 0))

/-- `matMul`: the triple loop of the source, entrywise
`Σ_k A[i][k] * B[k][j]`. -/
noncomputable def matMul (A B : List (List ℝ)) : List (List ℝ) :=
  (List.range A.length).map (fun i =>
    (List.range (B.headD []).length).map (fun j =>
      ((List.range (A.headD []).length).map (fun k =>
        (A.getD i []).getD k 0 * (B.getD k []).getD j 0)).sum))

/-- `matVecMul`. -/
noncomputable def matVecMul (A : List (List ℝ)) (v : List ℝ) : List ℝ :=
  A.map (fun row =>
    ((List.range row.length).map (fun k => row.getD k 0 * v.getD k 0)).sum)

/-- Matrix entry access `m[i][j]` with the JS out-of-range value modelled
as 0. -/
noncomputable def entry (m : List (List ℝ)) (i j : Nat) : ℝ :=
  (m.getD i []).getD j 0

/-- One iteration of the ridge loop `XTX[i][i] += lambda` (λ = 0.01). -/
noncomputable def regStep (m : List (List ℝ)) (i : Nat) : List (List ℝ) :=
  m.set i ((m.getD i []).set i ((m.getD i []).getD i 0 + 1/100))

/-- The regularization loop of `train`: `for (i = 1; i < XTX.length; i++)
XTX[i][i] += 0.01` — the bias row/column at index 0 is skipped. -/
noncomputable def addReg (m : List (List ℝ)) : List (List ℝ) :=
  (List.range' 1 (m.length - 1)).foldl regStep m

open Classical in
/-- One elimination round of the Gauss-Jordan `invertMatrix`: pick the
largest-magnitude pivot at or below row `i`, swap, nudge a near-zero pivot by
1e-6, scale the pivot row, eliminate the column everywhere else. -/
noncomputable def gjRound (n : Nat) (aug : List (List ℝ)) (i : Nat) :
    List (List ℝ) :=
  let maxRow := (List.range' (i + 1) (n - (i + 1))).foldl
    (fun best k => if |entry aug k i| > |entry aug best i| then k else best) i
  let sw := (aug.set i (aug.getD maxRow [])).set maxRow (aug.getD i [])
  let fixed := if |entry sw i i| < 1/10 ^ 10 then
      sw.set i ((sw.getD i []).set i (entry sw i i + 1/10 ^ 6))
    else sw
  let scale := entry fixed i i
  let scaled := fixed.set i ((fixed.getD i []).map (fun v => v / scale))
  (List.range n).foldl (fun acc k =>
    if k = i then acc
    else
      let factor := entry acc k i
      acc.set k (((List.range (2 * n)).map (fun j =>
        entry acc k j - factor * entry acc i j)))) scaled

/-- `invertMatrix` by Gauss-Jordan elimination on the `[m | I]` augmented
matrix. -/
noncomputable def invertMatrix (m : List (List ℝ)) : List (List ℝ) :=
  let n := m.length
  let aug := (List.range n).map (fun i =>
    (m.getD i []) ++ (List.range n).map (fun j => if j = i then (1 : ℝ) else 0))
  let solved := (List.range n).foldl (gjRound n) aug
  solved.map (fun row => row.drop n)

/-- The fitted parameters stored by a successful `train` (the source sets
`weights`, `bias`, `featureMeans`, `featureStds` and `trainStats` together;
`weights === null` is the not-trained test). -/
structure LRFit where
  weights : List ℝ
  bias : ℝ
  featureMeans : List ℝ
  featureStds : List ℝ
  r2 : ℝ
  rmse : ℝ
  mae : ℝ
  samples : Nat

/-- A `LinearRegressionModel` instance: `none` before a successful `train`. -/
structure LRModel where
  fitted : Option LRFit

/-- The `LinearRegressionModel` constructor. -/
def mkLR : LRModel := { fitted := none }

/-- The normalized feature matrix of a training call (means/stds fitted on
the same data). -/
noncomputable def lrNormX (data : List RegRow) : List (List ℝ) :=
  let X := data.map featuresToNumeric
  (X.map (normalizeRow (colMeans X) (colStds X (colMeans X))))

/-- The bias-augmented design matrix `X_bias` of `train`. -/
noncomputable def lrXb (data : List RegRow) : List (List ℝ) :=
  (lrNormX data).map (fun row => 1 :: row)

/-- The Gram matrix `XᵀX` computed by `train` before regularization. -/
noncomputable def lrXTX (data : List RegRow) : List (List ℝ) :=
  matMul (transpose (lrXb data)) (lrXb data)

/-- Weight application + non-negativity clamp (`predictNormalized`). -/
noncomputable def predictNormalized (bias : ℝ) (weights : List ℝ) (xn : List ℝ) : ℝ :=
  max 0 (bias + ((List.range xn.length).map (fun i =>
    xn.getD i 0 * weights.getD i 0)).sum)

/-- `LinearRegressionModel.train`: ridge-regularized normal equation over the
z-scored, bias-augmented design matrix, then in-sample statistics (R² clamped
to [0,1]). -/
noncomputable def lrTrain (data : List RegRow) : Except String LRFit :=
  if data.length < 2 then Except.error ("Need at least 2 data points to train")
  else
    let X := data.map featuresToNumeric
    let y := data.map (fun d => d.Sales)
    let means := colMeans X
    let stds := colStds X means
    let Xnorm := lrNormX data
    let Xb := lrXb data
    let XT := transpose Xb
    let XTXreg := addReg (lrXTX data)
    let XTXinv := invertMatrix XTXreg
    let XTy := matVecMul XT y
    let theta := matVecMul XTXinv XTy
    let bias := theta.headD 0
    let weights := theta.tail
    let predictions := Xnorm.map (predictNormalized bias weights)
    let yMean := y.sum / (y.length : ℝ)
    let ssRes := ((y.zip predictions).map (fun p => (p.1 - p.2) ^ 2)).sum
    let ssTot := (y.map (fun yi => (yi - yMean) ^ 2)).sum
    let r2 := 1 - ssRes / ssTot
    Except.ok
      { weights := weights, bias := bias,
        featureMeans := means, featureStds := stds,
        r2 := max 0 (min 1 r2),
        rmse := Real.sqrt (ssRes / (y.length : ℝ)),
        mae := ((y.zip predictions).map (fun p => |p.1 - p.2|)).sum
          / (y.length : ℝ),
        samples := data.length }

/-- `LinearRegressionModel.predict`: throws before `train`, else encodes,
normalizes with the stored parameters, applies the weights, clamps at 0 and
rounds. -/
noncomputable def lrPredict (m : LRModel) (features : RegRow) :
    Except String ℤ :=
  match m.fitted with
  | none => Except.error ("Model not trained")
  | some fit =>
    let x := featuresToNumeric features
    let xn := normalizeRow fit.featureMeans fit.featureStds x
    Except.ok (round (max 0 (predictNormalized fit.bias fit.weights xn)))

end LR

/-! ## Helper lemmas -/

theorem foldl_preserve {α β : Type} (P : β → Prop) (step : β → α → β)
    (l : List α) :
    ∀ init : β, P init → (∀ b a, a ∈ l → P b → P (step b a)) →
      P (l.foldl step init) := by
  induction l with
  | nil => intro init h0 _; exact h0
  | cons a as ih =>
    intro init h0 hstep
    exact ih (step init a) (hstep init a (List.mem_cons_self a as) h0)
      (fun b x hx hb => hstep b x (List.mem_cons_of_mem a hx) hb)

theorem mem_uniqueList {α : Type} [DecidableEq α] (l : List α) (x : α) :
    x ∈ uniqueList l ↔ x ∈ l := by
  induction l using uniqueList.induct with
  | case1 => simp [uniqueList]
  | case2 a as ih =>
    rw [uniqueList]
    constructor
    · intro hx
      rcases List.mem_cons.1 hx with h | h
      · exact h ▸ List.mem_cons_self a as
      · have := ih.1 h
        exact List.mem_cons_of_mem a (List.mem_of_mem_filter this)
    · intro hx
      rcases List.mem_cons.1 hx with h | h
      · exact h ▸ List.mem_cons_self a _
      · by_cases hxa : x = a
        · exact hxa ▸ List.mem_cons_self a _
        · exact List.mem_cons_of_mem a
            (ih.2 (List.mem_filter.2 ⟨h, by simp [hxa]⟩))

theorem nodup_uniqueList {α : Type} [DecidableEq α] (l : List α) :
    (uniqueList l).Nodup := by
  induction l using uniqueList.induct with
  | case1 => simp [uniqueList]
  | case2 a as ih =>
    rw [uniqueList]
    refine List.nodup_cons.2 ⟨?_, ih⟩
    intro hmem
    have := (mem_uniqueList _ _).1 hmem
    have := List.mem_filter.1 this
    simp at this

theorem uniqueList_ne_nil {α : Type} [DecidableEq α] (l : List α)
    (h : l ≠ []) : uniqueList l ≠ [] := by
  cases l with
  | nil => exact absurd rfl h
  | cons a as => rw [uniqueList]; exact List.cons_ne_nil _ _

theorem eq_of_uniqueList_singleton {α : Type} [DecidableEq α] (l : List α)
    (v : α) (h : uniqueList l = [v]) : ∀ x ∈ l, x = v := by
  intro x hx
  have := (mem_uniqueList l x).2 hx
  rw [h] at this
  simpa using this

/-! ## C8: predictions before training throw -/

/-- C8: every predict/forecast-style call on a freshly constructed model
throws: `DecisionTreeClassifier.predict` and `predictTopN` before `train`,
`LinearRegressionModel.predict` before `train`, and `HoltForecaster.forecast`
before `fit`. -/
theorem C8_untrained_models_throw :
    (∀ (md : Nat) (s : ID3.Row),
      ID3.dtPredict (ID3.mkDT md) s = Except.error ("Model not trained yet")) ∧
    (∀ (md : Nat) (s : ID3.Row) (n : Nat),
      ID3.dtPredictTopN (ID3.mkDT md) s n =
        Except.error ("Model not trained yet")) ∧
    (∀ f : LR.RegRow,
      LR.lrPredict LR.mkLR f = Except.error ("Model not trained")) ∧
    (∀ (a b : ℚ) (k : Nat),
      (Holt.holtForecast (Holt.holtInit a b) k).1 =
        Except.error ("Model not fitted")) :=
  ⟨fun _ _ => rfl, fun _ _ _ => rfl, fun _ => rfl, fun _ _ _ => rfl⟩

/-! ## C9: Holt model state is read-only after fit -/

/-- C9: `forecast`, `getConfidenceIntervals` and `getStats` leave the
`HoltForecaster` state unchanged (only `fit` writes it), so repeating any of
them with the same arguments returns the same result. -/
theorem C9_holt_state_read_only :
    ∀ (h : Holt.HoltState) (steps : Nat) (conf : ℚ),
      (Holt.holtForecast h steps).2 = h ∧
      (Holt.holtCI h steps conf).2 = h ∧
      (Holt.holtGetStats h).2 = h ∧
      (Holt.holtForecast (Holt.holtForecast h steps).2 steps).1 =
        (Holt.holtForecast h steps).1 ∧
      (Holt.holtCI (Holt.holtCI h steps conf).2 steps conf).1 =
        (Holt.holtCI h steps conf).1 ∧
      (Holt.holtGetStats (Holt.holtGetStats h).2).1 =
        (Holt.holtGetStats h).1 := by
  intro h steps conf
  have hf : (Holt.holtForecast h steps).2 = h := by
    unfold Holt.holtForecast
    rcases h.level with _ | l <;> rcases h.trend with _ | t <;> rfl
  have hci : (Holt.holtCI h steps conf).2 = h := by
    unfold Holt.holtCI
    rcases (Holt.holtForecast h steps).1 with e | p <;> rfl
  have hgs : (Holt.holtGetStats h).2 = h := by
    unfold Holt.holtGetStats
    by_cases he : h.trainData = [] <;> simp [he]
  exact ⟨hf, hci, hgs, by rw [hf], by rw [hci], by rw [hgs]⟩

/-! ## C2: forest constructor defaults and feature-subset size -/

theorem selectGo_length (sel : Nat → Nat) :
    ∀ (k i : Nat) (avail : List Nat),
      (RF.selectGo sel k i avail).length = k := by
  intro k
  induction k with
  | zero => intro i avail; rfl
  | succ k ih =>
    intro i avail
    rw [RF.selectGo]
    simp [ih]

theorem selectFeatures_sqrt_length (sel : Nat → Nat) (n : Nat) :
    (RF.selectFeatures true sel n).length = RF.ceilSqrt n := by
  unfold RF.selectFeatures
  simp [selectGo_length]

/-- C2 counterexample: the `RandomForestClassifier` constructor invoked with
no explicit arguments yields tree count 10, maxDepth 5 and minSamplesSplit 5,
not the 15/6/3 stated by the claim (those are the arguments passed explicitly
by `PriceSensitivityModel.train`). -/
theorem C2_counterexample :
    RF.mkRandomForestClassifier.nTrees = 10 ∧
    RF.mkRandomForestClassifier.maxDepth = 5 ∧
    RF.mkRandomForestClassifier.minSamplesSplit = 5 ∧
    ¬(RF.mkRandomForestClassifier.nTrees = 15 ∧
      RF.mkRandomForestClassifier.maxDepth = 6 ∧
      RF.mkRandomForestClassifier.minSamplesSplit = 3) := by
  refine ⟨rfl, rfl, rfl, ?_⟩
  intro hcl
  exact absurd hcl.1 (by decide)

/-- C2 (amended): a `RandomForestClassifier` constructed with no explicit
arguments has tree count 10, maxDepth 5, minSamplesSplit 5 and the `'sqrt'`
feature mode; in that default mode every feature subset selected during `fit`
has size `ceil(sqrt(nFeatures))`. -/
theorem C2_constructor_defaults :
    (RF.mkRandomForestClassifier.nTrees = 10 ∧
     RF.mkRandomForestClassifier.maxDepth = 5 ∧
     RF.mkRandomForestClassifier.minSamplesSplit = 5 ∧
     RF.mkRandomForestClassifier.sqrtMode = true) ∧
    (∀ (cfg : RF.RFConfig) (boot sel : Nat → Nat → Nat) (X : List (List ℚ))
       (y : List String) (names : List String),
      cfg.sqrtMode = true →
      ∀ s ∈ (RF.rfFit cfg boot sel X y names).featureSubsets,
        s.length = RF.ceilSqrt (X.headD []).length) := by
  refine ⟨⟨rfl, rfl, rfl, rfl⟩, ?_⟩
  intro cfg boot sel X y names hmode s hs
  unfold RF.rfFit at hs
  simp only [List.map_map, List.mem_map] at hs
  obtain ⟨t, _, hst⟩ := hs
  simp only [Function.comp] at hst
  rw [← hst, hmode]
  exact selectFeatures_sqrt_length _ _

/-- Witness for the amended C2 on a concrete forest. -/
theorem C2_constructor_defaults_witness :
    ∀ s ∈ (RF.rfFit RF.mkRandomForestClassifier (fun _ _ => 0) (fun _ _ => 0)
        [[1], [2]] ["a", "b"] ["f"]).featureSubsets,
      s.length = RF.ceilSqrt 1 :=
  C2_constructor_defaults.2 RF.mkRandomForestClassifier _ _ [[1], [2]]
    ["a", "b"] ["f"] rfl

/-! ## C5: fitting a constant series -/

theorem fitStep_const (α β c : ℚ) (fit res : List ℚ) :
    ∀ m : Nat,
      (((List.replicate m c).foldl (Holt.fitStep α β) (c, 0, fit, res)).1 = c ∧
       ((List.replicate m c).foldl (Holt.fitStep α β) (c, 0, fit, res)).2.1 = 0) := by
  have hstep : ∀ fit' res' : List ℚ,
      Holt.fitStep α β (c, 0, fit', res') c =
        (c, 0, fit' ++ [c + 0], res' ++ [c - (c + 0)]) := by
    intro fit' res'
    unfold Holt.fitStep
    simp only [Prod.ext_iff]
    exact ⟨by ring, by ring, trivial⟩
  -- generalize the accumulated lists
  suffices hgen : ∀ (m : Nat) (fit' res' : List ℚ),
      (((List.replicate m c).foldl (Holt.fitStep α β) (c, 0, fit', res')).1 = c ∧
       ((List.replicate m c).foldl (Holt.fitStep α β) (c, 0, fit', res')).2.1 = 0) by
    intro m; exact hgen m fit res
  intro m
  induction m with
  | zero => intro fit' res'; exact ⟨rfl, rfl⟩
  | succ m ih =>
    intro fit' res'
    rw [List.replicate_succ, List.foldl_cons, hstep]
    exact ih _ _

/-- C5 (amended): fitting a constant series of length at least 2 with value
`c` yields level exactly `c` and trend exactly 0, and every forecast step
returns `max 0 c` — which equals `c` whenever `c ≥ 0` (for negative `c` the
non-negativity clamp of `forecast` returns 0 instead of `c`). -/
theorem C5_constant_series_amended :
    ∀ (n : Nat) (c : ℚ), 2 ≤ n →
      ∃ st : Holt.HoltState,
        Holt.holtFit Holt.holtInit (List.replicate n c) = Except.ok st ∧
        st.level = some c ∧ st.trend = some 0 ∧
        (∀ steps, (Holt.holtForecast st steps).1 =
          Except.ok (List.replicate steps (max 0 c))) ∧
        (0 ≤ c → ∀ steps, (Holt.holtForecast st steps).1 =
          Except.ok (List.replicate steps c)) := by
  intro n c hn
  obtain ⟨k, rfl⟩ : ∃ k, n = k + 2 := ⟨n - 2, by omega⟩
  have hrep : List.replicate (k + 2) c = c :: c :: List.replicate k c := by
    rw [List.replicate_succ, List.replicate_succ]
  rw [hrep]
  unfold Holt.holtFit
  simp only [sub_self]
  have hfold := fitStep_const (Holt.holtInit.alpha) (Holt.holtInit.beta) c
    [c] [0] (k + 1)
  rw [List.replicate_succ] at hfold
  refine ⟨_, rfl, ?_, ?_, ?_, ?_⟩
  · simp only [hfold.1]
  · simp only [hfold.2]
  · intro steps
    unfold Holt.holtForecast
    simp only [hfold.1, hfold.2]
    have hmap : (List.range steps).map (fun (i : ℕ) => max 0 (c + ((i : ℚ) + 1) * 0)) =
        List.replicate steps (max 0 c) := by
      rw [List.eq_replicate_iff]
      refine ⟨by rw [List.length_map, List.length_range], ?_⟩
      intro b hb
      obtain ⟨i, _, hib⟩ := List.mem_map.1 hb
      rw [← hib]
      norm_num
    rw [hmap]
  · intro hc steps
    unfold Holt.holtForecast
    simp only [hfold.1, hfold.2]
    have hmap : (List.range steps).map (fun (i : ℕ) => max 0 (c + ((i : ℚ) + 1) * 0)) =
        List.replicate steps c := by
      rw [List.eq_replicate_iff]
      refine ⟨by rw [List.length_map, List.length_range], ?_⟩
      intro b hb
      obtain ⟨i, _, hib⟩ := List.mem_map.1 hb
      rw [← hib]
      norm_num [max_eq_right hc]
    rw [hmap]

/-- Witness for the amended C5: three observations of value 5. -/
theorem C5_constant_series_amended_witness :
    ∃ st : Holt.HoltState,
      Holt.holtFit Holt.holtInit (List.replicate 3 (5 : ℚ)) = Except.ok st ∧
      st.level = some 5 ∧ st.trend = some 0 ∧
      (∀ steps, (Holt.holtForecast st steps).1 =
        Except.ok (List.replicate steps (max 0 5))) ∧
      ((0 : ℚ) ≤ 5 → ∀ steps, (Holt.holtForecast st steps).1 =
        Except.ok (List.replicate steps 5)) :=
  C5_constant_series_amended 3 5 (by norm_num)

/-- C5 counterexample: for the constant series `[-1, -1]` the fit yields
trend 0 but `forecast(1)` returns `[0]`, not `[-1]` — the claim "forecasts
approximately equal to the constant value" fails for a negative constant. -/
theorem C5_counterexample :
    ∃ st : Holt.HoltState,
      Holt.holtFit Holt.holtInit [-1, -1] = Except.ok st ∧
      (Holt.holtForecast st 1).1 = Except.ok [0] ∧ (0 : ℚ) ≠ -1 := by
  refine ⟨{ alpha := 3/10, beta := 1/10, level := some (-1), trend := some 0,
            fitted := [-1, -1], residuals := [0, 0],
            trainData := [-1, -1] }, ?_, ?_, by norm_num⟩
  · norm_num [Holt.holtFit, Holt.fitStep, Holt.holtInit]
  · norm_num [Holt.holtForecast, List.range_succ]

/-! ## C10: empty training data and a single-row data set -/

theorem buildTree_nil (feats : List String) (tgt : String) (md : Nat) :
    ID3.buildTree [] feats tgt md = ID3.ID3Tree.leaf ("Unknown") 0 0 none := by
  unfold ID3.buildTree
  cases md <;> simp [ID3.buildTreeAux]

/-- C10: `buildTree` on an empty data set returns the `'Unknown'` leaf with
confidence 0 and 0 samples (no distribution field) instead of throwing, and
`train` on a single row — whose 80/20 split takes `floor(1*0.8) = 0` rows
into the training partition — yields a model whose every `predict` call
returns `'Unknown'` with confidence 0. -/
theorem C10_empty_train_partition :
    (∀ (feats : List String) (tgt : String) (md : Nat),
      ID3.buildTree [] feats tgt md = ID3.ID3Tree.leaf ("Unknown") 0 0 none) ∧
    (∀ (m : ID3.DTModel) (shuffle : List ID3.Row → List ID3.Row)
       (data : List ID3.Row) (feats : List String) (tgt : String)
       (s : ID3.Row),
      data.length = 1 →
      ID3.dtPredict (ID3.dtTrain m shuffle data feats tgt) s =
        Except.ok { prediction := "Unknown", confidence := 0,
                    distribution := none }) := by
  refine ⟨buildTree_nil, ?_⟩
  intro m shuffle data feats tgt s hlen
  unfold ID3.dtTrain ID3.trainTestSplit
  rw [hlen]
  have hfloor : Nat.floor ((((1 : ℕ) : ℚ)) * (1 - 2/10)) = 0 := by norm_num
  rw [hfloor]
  simp only [List.take_zero]
  rw [buildTree_nil]
  rfl

/-- Witness for C10 on a concrete one-row data set. -/
theorem C10_empty_train_partition_witness :
    ID3.dtPredict
      (ID3.dtTrain (ID3.mkDT 5) (fun l => l)
        [(fun _ => ("x") : ID3.Row)] ["f"] ("t"))
      (fun _ => ("y")) =
      Except.ok { prediction := "Unknown", confidence := 0,
                  distribution := none } :=
  C10_empty_train_partition.2 (ID3.mkDT 5) (fun l => l)
    [(fun _ => ("x") : ID3.Row)] ["f"] ("t") (fun _ => ("y")) rfl

/-! ## C7: unseen branch value falls back to the default prediction -/

theorem predictChildren_all_ne (s : ID3.Row) (v : String) (dflt : String) :
    ∀ ch : List (String × ID3.ID3Tree), (∀ p ∈ ch, p.1 ≠ v) →
      ID3.predictChildren s v ch dflt =
        { prediction := dflt, confidence := 1/2, distribution := some [] } := by
  intro ch
  induction ch with
  | nil => intro _; rfl
  | cons c rest ih =>
    intro hall
    rw [ID3.predictChildren]
    rw [if_neg (hall c (List.mem_cons_self c rest))]
    exact ih (fun p hp => hall p (List.mem_cons_of_mem c hp))

/-- C7: on a decision node whose branch keys all differ from the sample's
value for the split feature, `predict` returns the stored
`defaultPrediction` with confidence 0.5 and an empty distribution — and for
trees built by `buildTree` that stored default is the majority label of the
node's own (parent) subset. -/
theorem C7_unseen_branch_fallback :
    (∀ (f : String) (g : ℝ) (n : Nat) (ch : List (String × ID3.ID3Tree))
       (dflt : String) (s : ID3.Row),
      (∀ p ∈ ch, p.1 ≠ s f) →
      ID3.predictID3 s (ID3.ID3Tree.node f g n ch dflt) =
        { prediction := dflt, confidence := 1/2, distribution := some [] }) ∧
    (∀ (data : List ID3.Row) (feats : List String) (tgt : String) (md : Nat)
       (f : String) (g : ℝ) (n : Nat) (ch : List (String × ID3.ID3Tree))
       (dflt : String),
      ID3.buildTree data feats tgt md = ID3.ID3Tree.node f g n ch dflt →
      dflt = (ID3.getMajorityClass data tgt).1) := by
  constructor
  · intro f g n ch dflt s hall
    rw [ID3.predictID3]
    exact predictChildren_all_ne s (s f) dflt ch hall
  · intro data feats tgt md f g n ch dflt heq
    unfold ID3.buildTree at heq
    cases md with
    | zero =>
      simp only [ID3.buildTreeAux] at heq
      split at heq <;> simp at heq
    | succ fuel =>
      simp only [ID3.buildTreeAux] at heq
      split at heq
      · simp at heq
      · split at heq
        · simp at heq
        · split at heq
          · simp at heq
          · split at heq
            · simp at heq
            · rw [ID3.ID3Tree.node.injEq] at heq
              exact heq.2.2.2.2.symm

/-- Witness for C7 at a concrete childless node and sample. -/
theorem C7_unseen_branch_fallback_witness :
    ID3.predictID3 (fun _ => ("v"))
      (ID3.ID3Tree.node ("f") 0 1 [] ("d")) =
      { prediction := "d", confidence := 1/2, distribution := some [] } :=
  C7_unseen_branch_fallback.1 ("f") 0 1 [] ("d") (fun _ => ("v"))
    (by intro p hp; cases hp)

/-! ## C4: structural invariants of both tree builders -/

theorem map_fst_pairs {α β : Type} (u : List α) (g : α → β) :
    (u.map (fun v => (v, g v))).map Prod.fst = u := by
  induction u with
  | nil => rfl
  | cons a as ih => simp [ih]

theorem nodup_keys_pairs {α β : Type} (u : List α) (g : α → β)
    (hu : u.Nodup) : ((u.map (fun v => (v, g v))).map Prod.fst).Nodup := by
  rw [map_fst_pairs]
  exact hu

theorem infoGain_single (data : List ID3.Row) (f tgt v : String)
    (hne : data ≠ []) (hu : uniqueList (data.map (fun r => r f)) = [v]) :
    ID3.infoGain data f tgt = 0 := by
  have hall : ∀ r ∈ data, r f = v := by
    intro r hr
    exact eq_of_uniqueList_singleton _ v hu (r f)
      (List.mem_map_of_mem (fun r => r f) hr)
  have hfilter : data.filter (fun r => r f = v) = data := by
    rw [List.filter_eq_self]
    intro r hr
    simp [hall r hr]
  have hlen0 : data.length ≠ 0 := by
    intro h
    exact hne (List.length_eq_zero.1 h)
  have hn : (data.length : ℝ) ≠ 0 := Nat.cast_ne_zero.2 hlen0
  unfold ID3.infoGain
  rw [hu]
  simp only [List.map_cons, List.map_nil, List.sum_cons, List.sum_nil]
  rw [hfilter, div_self hn]
  ring

theorem findBestFeature_spec (data : List ID3.Row) (feats : List String)
    (tgt : String) :
    ∀ p : String × ℝ, ID3.findBestFeature data feats tgt = some p →
      p.1 ∈ feats ∧ p.2 = ID3.infoGain data p.1 tgt := by
  unfold ID3.findBestFeature
  refine foldl_preserve
    (fun acc : Option (String × ℝ) => ∀ p : String × ℝ, acc = some p →
      p.1 ∈ feats ∧ p.2 = ID3.infoGain data p.1 tgt)
    _ feats none (by intro p h; cases h) ?_
  intro b a ha hb p hp
  rcases b with _ | bg
  · simp only [Option.some.injEq] at hp
    rw [← hp]
    exact ⟨ha, rfl⟩
  · simp only at hp
    split at hp
    · simp only [Option.some.injEq] at hp
      rw [← hp]
      exact ⟨ha, rfl⟩
    · exact hb p hp

theorem buildTreeAux_invariant_depth (tgt : String) :
    ∀ (fuel : Nat) (data : List ID3.Row) (feats : List String),
      ID3.Invariant (ID3.buildTreeAux tgt fuel data feats) ∧
      ID3.DepthLE (ID3.buildTreeAux tgt fuel data feats) fuel := by
  intro fuel
  induction fuel with
  | zero =>
    intro data feats
    simp only [ID3.buildTreeAux]
    split
    · exact ⟨ID3.Invariant.leaf _ _ _ _, ID3.DepthLE.leaf _ _ _ _ _⟩
    · exact ⟨ID3.Invariant.leaf _ _ _ _, ID3.DepthLE.leaf _ _ _ _ _⟩
  | succ fuel ih =>
    intro data feats
    simp only [ID3.buildTreeAux]
    split
    · exact ⟨ID3.Invariant.leaf _ _ _ _, ID3.DepthLE.leaf _ _ _ _ _⟩
    rename_i hdata
    split
    · exact ⟨ID3.Invariant.leaf _ _ _ _, ID3.DepthLE.leaf _ _ _ _ _⟩
    rename_i hconf
    split
    · exact ⟨ID3.Invariant.leaf _ _ _ _, ID3.DepthLE.leaf _ _ _ _ _⟩
    rename_i bf hbf
    split
    · exact ⟨ID3.Invariant.leaf _ _ _ _, ID3.DepthLE.leaf _ _ _ _ _⟩
    rename_i hgain
    have hne : data ≠ [] := by
      intro h
      rw [h] at hdata
      exact hdata rfl
    constructor
    · refine ID3.Invariant.node _ _ _ _ _ ?_ ?_ ?_
      · rw [List.length_map]
        have hunil : uniqueList (data.map (fun r => r bf.1)) ≠ [] :=
          uniqueList_ne_nil _ (by simp [hne])
        rcases hlen1 : (uniqueList (data.map (fun r => r bf.1))).length
          with _ | m
        · exact absurd (List.length_eq_zero.1 hlen1) hunil
        rcases m with _ | k
        · obtain ⟨v, hv⟩ := List.length_eq_one.1 hlen1
          have hg0 : ID3.infoGain data bf.1 tgt = 0 :=
            infoGain_single data bf.1 tgt v hne hv
          have hspec := findBestFeature_spec data feats tgt bf hbf
          rw [hspec.2, hg0] at hgain
          exact absurd le_rfl hgain
        · rw [hlen1]
          exact Nat.succ_le_succ (Nat.succ_le_succ (Nat.zero_le k))
      · exact nodup_keys_pairs (uniqueList (data.map (fun r => r bf.1)))
          (fun v => ID3.buildTreeAux tgt fuel
            (data.filter (fun r => r bf.1 = v))
            (feats.filter (fun f => f ≠ bf.1)))
          (nodup_uniqueList _)
      · intro p hp
        obtain ⟨v, _, hpv⟩ := List.mem_map.1 hp
        rw [← hpv]
        exact (ih _ _).1
    · refine ID3.DepthLE.node _ _ _ _ _ _ ?_
      intro p hp
      obtain ⟨v, _, hpv⟩ := List.mem_map.1 hp
      rw [← hpv]
      exact (ih _ _).2

theorem buildTreeR_depthLE (ms : Nat) (idxs : List Nat) :
    ∀ (fuel : Nat) (X : List (List ℚ)) (y : List String),
      RF.RDepthLE (RF.buildTreeR ms idxs fuel X y) fuel := by
  intro fuel
  induction fuel with
  | zero => intro X y; exact RF.RDepthLE.leaf _ _
  | succ fuel ih =>
    intro X y
    simp only [RF.buildTreeR]
    split
    · exact RF.RDepthLE.leaf _ _
    split
    · exact RF.RDepthLE.leaf _ _
    split
    · exact RF.RDepthLE.leaf _ _
    · exact RF.RDepthLE.node _ _ _ _ _ (ih _ _) (ih _ _)

/-- C4: every tree produced by either builder satisfies the structural
invariant — for the ID3 builder, every decision node has at least two
children addressed by pairwise-distinct branch keys; for both builders no
chain of decision nodes is longer than the configured maxDepth; and in both
embeddings a node is a leaf exactly when it has no children (enforced by the
tree types, with the ≥2-children bound excluding childless decision nodes in
the ID3 case and the `node` constructor carrying exactly two subtrees in the
Gini case). -/
theorem C4_tree_structural_invariant :
    (∀ (data : List ID3.Row) (feats : List String) (tgt : String) (md : Nat),
      ID3.Invariant (ID3.buildTree data feats tgt md) ∧
      ID3.DepthLE (ID3.buildTree data feats tgt md) md) ∧
    (∀ (ms : Nat) (idxs : List Nat) (md : Nat) (X : List (List ℚ))
       (y : List String),
      RF.RDepthLE (RF.buildTreeR ms idxs md X y) md) :=
  ⟨fun data feats tgt md => buildTreeAux_invariant_depth tgt md data feats,
   fun ms idxs md X y => buildTreeR_depthLE ms idxs md X y⟩

/-! ## C6: the ridge constant touches only the weight diagonal -/

theorem getD_set_self {α : Type} (d a : α) :
    ∀ (l : List α) (i : Nat), i < l.length → (l.set i a).getD i d = a := by
  intro l
  induction l with
  | nil => intro i h; simp at h
  | cons b bs ih =>
    intro i h
    cases i with
    | zero => rfl
    | succ i => exact ih i (by simpa using h)

theorem getD_set_ne {α : Type} (d a : α) :
    ∀ (l : List α) (i j : Nat), i ≠ j → (l.set i a).getD j d = l.getD j d := by
  intro l
  induction l with
  | nil => intro i j _; simp
  | cons b bs ih =>
    intro i j hij
    cases i with
    | zero =>
      cases j with
      | zero => exact absurd rfl hij
      | succ j => rfl
    | succ i =>
      cases j with
      | zero => rfl
      | succ j => exact ih i j (fun h => hij (by rw [h]))

theorem getD_mem_of_lt {α : Type} (l : List α) (d : α) (k : Nat)
    (h : k < l.length) : l.getD k d ∈ l := by
  rw [List.getD_eq_getElem l d h]
  exact List.getElem_mem h

theorem regStep_shape (m : List (List ℝ)) (n k : Nat) (hm : m.length = n)
    (hrows : ∀ r ∈ m, r.length = n) (hk : k < n) :
    (LR.regStep m k).length = n ∧ ∀ r ∈ LR.regStep m k, r.length = n := by
  constructor
  · rw [LR.regStep, List.length_set, hm]
  · intro r hr
    rcases List.mem_or_eq_of_mem_set hr with h | h
    · exact hrows r h
    · rw [h, List.length_set]
      exact hrows _ (getD_mem_of_lt m [] k (by rw [hm]; exact hk))

theorem regStep_entry (m : List (List ℝ)) (n k : Nat) (hm : m.length = n)
    (hrows : ∀ r ∈ m, r.length = n) (hk : k < n) (i j : Nat) :
    LR.entry (LR.regStep m k) i j =
      LR.entry m i j + (if i = k ∧ j = k then 1/100 else 0) := by
  have hkm : k < m.length := by rw [hm]; exact hk
  have hrowlen : (m.getD k []).length = n := hrows _ (getD_mem_of_lt m [] k hkm)
  unfold LR.entry LR.regStep
  by_cases hik : i = k
  · subst hik
    rw [getD_set_self _ _ m i hkm]
    by_cases hji : j = i
    · subst hji
      rw [getD_set_self _ _ _ j (by rw [hrowlen]; exact hk)]
      simp
    · rw [getD_set_ne _ _ _ i j (fun h => hji h.symm)]
      simp [hji]
  · rw [getD_set_ne _ _ m k i (fun h => hik h.symm)]
    simp [hik]

theorem foldl_regStep_entry (n : Nat) :
    ∀ (l : List Nat) (m : List (List ℝ)), m.length = n →
      (∀ r ∈ m, r.length = n) → l.Nodup → (∀ k ∈ l, k < n) →
      ∀ i j : Nat,
        LR.entry (l.foldl LR.regStep m) i j =
          LR.entry m i j + (if i = j ∧ i ∈ l then 1/100 else 0) := by
  intro l
  induction l with
  | nil =>
    intro m _ _ _ _ i j
    simp
  | cons k l' ih =>
    intro m hm hrows hnd hmem i j
    have hk : k < n := hmem k (List.mem_cons_self k l')
    have hshape := regStep_shape m n k hm hrows hk
    rw [List.foldl_cons,
      ih (LR.regStep m k) hshape.1 hshape.2 (List.nodup_cons.1 hnd).2
        (fun x hx => hmem x (List.mem_cons_of_mem k hx)) i j,
      regStep_entry m n k hm hrows hk i j]
    by_cases hij : i = j
    · subst hij
      by_cases hik : i = k
      · subst hik
        have hnotin : i ∉ l' := (List.nodup_cons.1 hnd).1
        simp [hnotin]
      · by_cases hin : i ∈ l' <;> simp [hik, List.mem_cons, hin]
    · have : ¬(i = k ∧ j = k) := fun h => hij (h.1.trans h.2.symm)
      simp [hij, this]

theorem lrXTX_shape (data : List LR.RegRow) (hne : data ≠ []) :
    (LR.lrXTX data).length = 7 ∧ ∀ r ∈ LR.lrXTX data, r.length = 7 := by
  obtain ⟨d0, ds, rfl⟩ := List.exists_cons_of_ne_nil hne
  have hXbhead : ((LR.lrXb (d0 :: ds)).headD []).length = 7 := by
    simp [LR.lrXb, LR.lrNormX, LR.normalizeRow, LR.featuresToNumeric]
  constructor
  · simp only [LR.lrXTX, LR.matMul, LR.transpose, List.length_map,
      List.length_range]
    exact hXbhead
  · intro r hr
    simp only [LR.lrXTX, LR.matMul] at hr
    obtain ⟨i, _, hri⟩ := List.mem_map.1 hr
    rw [← hri]
    simp only [List.length_map, List.length_range]
    exact hXbhead

/-- C6: in `LinearRegressionModel.train` the ridge constant λ = 0.01 is added
exactly to the diagonal entries of `XᵀX` at the weight indices 1..6 and not
to the bias entry (0,0) — the matrix that `train` inverts is
`addReg (lrXTX data)`, and entrywise it equals `XᵀX` plus 0.01 on the
diagonal away from index 0. -/
theorem C6_ridge_skips_bias_row :
    ∀ (data : List LR.RegRow), data ≠ [] → ∀ i j : Nat, i < 7 → j < 7 →
      LR.entry (LR.addReg (LR.lrXTX data)) i j =
        LR.entry (LR.lrXTX data) i j +
          (if i = j ∧ 1 ≤ i then 1/100 else 0) := by
  intro data hne i j hi hj
  obtain ⟨hlen, hrows⟩ := lrXTX_shape data hne
  have h := foldl_regStep_entry 7
    (List.range' 1 ((LR.lrXTX data).length - 1)) (LR.lrXTX data) hlen hrows
    (by apply List.nodup_range'; norm_num) ?hk i j
  case hk =>
    intro k hk
    have hk' := List.mem_range'_1.1 hk
    rw [hlen] at hk'
    omega
  unfold LR.addReg
  rw [h]
  have hmem : i ∈ List.range' 1 ((LR.lrXTX data).length - 1) ↔ 1 ≤ i := by
    rw [List.mem_range'_1, hlen]
    exact ⟨fun hh => hh.1, fun hh => ⟨hh, by omega⟩⟩
  by_cases hcond : i = j ∧ 1 ≤ i
  · rw [if_pos hcond, if_pos ⟨hcond.1, hmem.2 hcond.2⟩]
  · rw [if_neg hcond, if_neg (fun hc => hcond ⟨hc.1, hmem.1 hc.2⟩)]

/-- Witness for C6 on a one-row data set at the first weight diagonal
entry. -/
theorem C6_ridge_skips_bias_row_witness :
    LR.entry (LR.addReg (LR.lrXTX
        [⟨none, none, none, none, none, none, 0⟩])) 1 1 =
      LR.entry (LR.lrXTX [⟨none, none, none, none, none, none, 0⟩]) 1 1 +
        (if 1 = 1 ∧ 1 ≤ 1 then 1/100 else 0) :=
  C6_ridge_skips_bias_row _ (List.cons_ne_nil _ _) 1 1 (by norm_num)
    (by norm_num)

/-! ## C1: confidence-interval ordering and width monotonicity -/

theorem zScore_pos (conf : ℚ) : 0 < Holt.zScore conf := by
  unfold Holt.zScore
  split
  · norm_num
  · split <;> norm_num

theorem getD_map_enum_map {α β γ : Type} (g : ℕ × β → γ) (f : α → β)
    (xs : List α) (n : Nat) (d : γ) (hn : n < xs.length) :
    ((xs.map f).enum.map g).getD n d = g (n, f (xs.get ⟨n, hn⟩)) := by
  rw [List.getD_eq_getElem _ _ (by simpa using hn)]
  rw [List.getElem_map, List.getElem_enum, List.getElem_map]
  rfl

/-- C1 (amended): for every fitted state, each confidence-interval entry
satisfies `lower ≤ prediction ≤ upper`; the interval width is non-decreasing
in the step index provided the fitted trend is non-negative (with a negative
trend the `max(0, ·)` clamp on the lower bound can make widths shrink, see
the counterexample). -/
theorem C1_interval_bounds_and_width :
    ∀ (h : Holt.HoltState) (l t : ℚ) (steps : Nat) (conf : ℚ),
      h.level = some l → h.trend = some t →
      ((∀ ci ∈ Holt.ciList h steps conf,
        ci.lower ≤ ci.prediction ∧ ci.prediction ≤ ci.upper) ∧
       (0 ≤ t → ∀ k, k + 1 < steps →
        Holt.ciWidth h steps conf k ≤ Holt.ciWidth h steps conf (k + 1))) := by
  intro h l t steps conf hl ht
  have hz : (0:ℝ) ≤ ((Holt.zScore conf : ℚ) : ℝ) := by
    exact_mod_cast (zScore_pos conf).le
  constructor
  · intro ci hci
    unfold Holt.ciList Holt.holtCI Holt.holtForecast at hci
    rw [hl, ht] at hci
    simp only [Except.toOption, Option.getD] at hci
    obtain ⟨p, hp, hgp⟩ := List.mem_map.1 hci
    have hp2 : p.2 ∈ (List.range steps).map
        (fun (i : ℕ) => max 0 (l + ((i:ℚ) + 1) * t)) :=
      List.get?_mem (List.mem_enum_iff_get?.1 hp)
    have hpr : (0:ℝ) ≤ ((p.2 : ℚ) : ℝ) := by
      obtain ⟨i, _, hi⟩ := List.mem_map.1 hp2
      rw [← hi]
      push_cast
      exact le_max_left 0 _
    have hu : (0:ℝ) ≤ Real.sqrt ((Holt.holtMSE h : ℚ) : ℝ) *
        Real.sqrt (1 + ((p.1:ℝ) + 1) * (1/10)) :=
      mul_nonneg (Real.sqrt_nonneg _) (Real.sqrt_nonneg _)
    have hzu : (0:ℝ) ≤ ((Holt.zScore conf : ℚ) : ℝ) *
        (Real.sqrt ((Holt.holtMSE h : ℚ) : ℝ) *
         Real.sqrt (1 + ((p.1:ℝ) + 1) * (1/10))) := mul_nonneg hz hu
    rw [← hgp]
    constructor
    · exact max_le hpr (by linarith)
    · simp only
      linarith
  · intro ht0 k hk
    unfold Holt.ciWidth Holt.ciList Holt.holtCI Holt.holtForecast
    rw [hl, ht]
    simp only [Except.toOption, Option.getD]
    rw [getD_map_enum_map _ _ _ k _ (by simp; omega),
      getD_map_enum_map _ _ _ (k+1) _ (by simp; omega)]
    rw [List.get_range, List.get_range]
    simp only
    set z : ℝ := ((Holt.zScore conf : ℚ) : ℝ) with hzdef
    set se : ℝ := Real.sqrt ((Holt.holtMSE h : ℚ) : ℝ) with hsedef
    have hse : 0 ≤ se := Real.sqrt_nonneg _
    set u1 : ℝ := Real.sqrt (1 + ((k:ℝ) + 1) * (1/10)) with hu1def
    set u2 : ℝ := Real.sqrt (1 + (((k+1 : ℕ):ℝ) + 1) * (1/10)) with hu2def
    have hu12 : u1 ≤ u2 := by
      rw [hu1def, hu2def]
      apply Real.sqrt_le_sqrt
      push_cast
      linarith
    have hu1 : 0 ≤ u1 := Real.sqrt_nonneg _
    set p1 : ℝ := ((max 0 (l + ((k:ℚ) + 1) * t) : ℚ) : ℝ) with hp1def
    set p2 : ℝ := ((max 0 (l + (((k+1:ℕ):ℚ) + 1) * t) : ℚ) : ℝ) with hp2def
    have hp12 : p1 ≤ p2 := by
      rw [hp1def, hp2def]
      have : l + ((k:ℚ) + 1) * t ≤ l + (((k+1:ℕ):ℚ) + 1) * t := by
        push_cast
        nlinarith
      exact_mod_cast max_le_max le_rfl this
    have hp1n : 0 ≤ p1 := by
      rw [hp1def]
      exact_mod_cast le_max_left 0 _
    have hzu12 : z * (se * u1) ≤ z * (se * u2) := by
      apply mul_le_mul_of_nonneg_left _ hz
      exact mul_le_mul_of_nonneg_left hu12 hse
    have hzu1 : 0 ≤ z * (se * u1) := mul_nonneg hz (mul_nonneg hse hu1)
    rcases max_cases 0 (p1 - z * (se * u1)) with ⟨hm1, hc1⟩ | ⟨hm1, hc1⟩ <;>
      rcases max_cases 0 (p2 - z * (se * u2)) with ⟨hm2, hc2⟩ | ⟨hm2, hc2⟩ <;>
      rw [hm1, hm2] <;> linarith

/-- Witness for the amended C1 on a concrete fitted state with positive
trend. -/
theorem C1_interval_bounds_and_width_witness :
    (∀ ci ∈ Holt.ciList ⟨3/10, 1/10, some 1, some 1, [], [0], [1, 1]⟩
        3 (95/100),
      ci.lower ≤ ci.prediction ∧ ci.prediction ≤ ci.upper) ∧
    ((0:ℚ) ≤ 1 → ∀ k, k + 1 < 3 →
      Holt.ciWidth ⟨3/10, 1/10, some 1, some 1, [], [0], [1, 1]⟩ 3 (95/100) k ≤
      Holt.ciWidth ⟨3/10, 1/10, some 1, some 1, [], [0], [1, 1]⟩ 3 (95/100)
        (k + 1)) :=
  C1_interval_bounds_and_width ⟨3/10, 1/10, some 1, some 1, [], [0], [1, 1]⟩
    1 1 3 (95/100) rfl rfl

/-- C1 counterexample: fitting `[200, 100, 500]` (level 150, trend -85,
residuals `[0, 0, 500]`) makes the width of the second 95% interval strictly
smaller than the width of the first — the non-negativity clamp on `lower`
breaks the claimed monotone interval widths. -/
theorem C1_counterexample :
    ∃ st : Holt.HoltState,
      Holt.holtFit Holt.holtInit [200, 100, 500] = Except.ok st ∧
      Holt.ciWidth st 2 (95/100) 1 < Holt.ciWidth st 2 (95/100) 0 := by
  refine ⟨{ alpha := 3/10, beta := 1/10, level := some 150, trend := some (-85),
            fitted := [200, 100, 0], residuals := [0, 0, 500],
            trainData := [200, 100, 500] }, ?_, ?_⟩
  · norm_num [Holt.holtFit, Holt.fitStep, Holt.holtInit]
  · unfold Holt.ciWidth Holt.ciList Holt.holtCI Holt.holtForecast
    dsimp only
    simp only [Except.toOption, Option.getD]
    rw [getD_map_enum_map _ _ _ 1 _ (by simp),
      getD_map_enum_map _ _ _ 0 _ (by simp)]
    rw [List.get_range, List.get_range]
    dsimp only
    have hmse : Holt.holtMSE ⟨3/10, 1/10, some 150, some (-85),
        [200, 100, 0], [0, 0, 500], [200, 100, 500]⟩ = 250000/3 := by
      norm_num [Holt.holtMSE]
    have hzsc : Holt.zScore (95/100) = 196/100 := by norm_num [Holt.zScore]
    rw [hmse, hzsc]
    have hse : Real.sqrt ((250000/3 : ℚ) : ℝ) = Real.sqrt (250000/3) := by
      norm_num
    rw [hse]
    have h1 : Real.sqrt (250000/3) * Real.sqrt (1 + (((0:ℕ):ℝ) + 1) * (1/10)) =
        Real.sqrt (275000/3) := by
      rw [← Real.sqrt_mul (by norm_num)]
      norm_num
    have h2 : Real.sqrt (250000/3) * Real.sqrt (1 + (((1:ℕ):ℝ) + 1) * (1/10)) =
        Real.sqrt 100000 := by
      rw [← Real.sqrt_mul (by norm_num)]
      norm_num
    rw [h1, h2]
    have hA : (302:ℝ) ≤ Real.sqrt (275000/3) := by
      rw [show (302:ℝ) = Real.sqrt (302^2) by
        rw [Real.sqrt_sq]; norm_num]
      apply Real.sqrt_le_sqrt
      norm_num
    have hB : Real.sqrt (100000:ℝ) ≤ 317 := by
      rw [show (317:ℝ) = Real.sqrt (317^2) by
        rw [Real.sqrt_sq]; norm_num]
      apply Real.sqrt_le_sqrt
      norm_num
    have hBpos : (0:ℝ) ≤ Real.sqrt 100000 := Real.sqrt_nonneg _
    have hp0 : ((max 0 (150 + (((0:ℕ):ℚ) + 1) * (-85)) : ℚ) : ℝ) = 65 := by
      norm_num
    have hp1 : ((max 0 (150 + (((1:ℕ):ℚ) + 1) * (-85)) : ℚ) : ℝ) = 0 := by
      norm_num
    rw [hp0, hp1]
    have hz196 : (((196/100 : ℚ)) : ℝ) = 196/100 := by norm_num
    rw [hz196]
    rw [max_eq_left (by nlinarith : (0:ℝ) - 196/100 * Real.sqrt 100000 ≤ 0)]
    rw [max_eq_left
      (by nlinarith : (65:ℝ) - 196/100 * Real.sqrt (275000/3) ≤ 0)]
    nlinarith

/-! ## C3: predictProba key set, values and total mass -/

theorem foldl_choice_mem {β : Type} (f : β → Nat) :
    ∀ (ps : List β) (p : β),
      ps.foldl (fun b q => if f q > f b then q else b) p ∈ p :: ps := by
  intro ps
  induction ps with
  | nil => intro p; exact List.mem_cons_self p []
  | cons q ps ih =>
    intro p
    rw [List.foldl_cons]
    by_cases h : f q > f p
    · rw [if_pos h]
      exact List.mem_cons_of_mem p (ih q)
    · rw [if_neg h]
      rcases List.mem_cons.1 (ih p) with h' | h'
      · rw [h']
        exact List.mem_cons_self p _
      · exact List.mem_cons_of_mem p (List.mem_cons_of_mem q h')

theorem countsList_fst_mem {α : Type} [DecidableEq α] (l : List α)
    (p : α × Nat) (hp : p ∈ countsList l) : p.1 ∈ l := by
  unfold countsList at hp
  obtain ⟨v, hv, hvp⟩ := List.mem_map.1 hp
  rw [← hvp]
  exact (mem_uniqueList l v).1 hv

theorem majorityClassR_mem (y : List String) (hy : y ≠ []) :
    RF.majorityClassR y ∈ y := by
  unfold RF.majorityClassR
  rcases hc : countsList y with _ | ⟨p, ps⟩
  · exfalso
    apply uniqueList_ne_nil y hy
    unfold countsList at hc
    exact List.map_eq_nil.1 hc
  · have hfold := foldl_choice_mem (fun q : String × Nat => q.2) ps p
    have hin : (ps.foldl (fun b q => if q.2 > b.2 then q else b) p) ∈
        countsList y := by
      rw [hc]
      exact hfold
    exact countsList_fst_mem y _ hin

theorem splitPairs_left_sub (X : List (List ℚ)) (y : List String) (f : Nat)
    (t : ℚ) : ∀ p ∈ (RF.splitPairs X y f t).1, p.2 ∈ y := by
  intro p hp
  unfold RF.splitPairs at hp
  rw [List.partition_eq_filter_filter] at hp
  exact (List.of_mem_zip (List.mem_of_mem_filter hp)).2

theorem splitPairs_right_sub (X : List (List ℚ)) (y : List String) (f : Nat)
    (t : ℚ) : ∀ p ∈ (RF.splitPairs X y f t).2, p.2 ∈ y := by
  intro p hp
  unfold RF.splitPairs at hp
  rw [List.partition_eq_filter_filter] at hp
  exact (List.of_mem_zip (List.mem_of_mem_filter hp)).2

theorem stepCand_preserve (X : List (List ℚ)) (y : List String) (pg : ℚ)
    (f : Nat) (acc : Option RF.Cand) (t : ℚ)
    (hacc : ∀ c, acc = some c → (RF.splitPairs X y c.f c.thr).1 ≠ [] ∧
      (RF.splitPairs X y c.f c.thr).2 ≠ []) :
    ∀ c, RF.stepCand X y pg f acc t = some c →
      (RF.splitPairs X y c.f c.thr).1 ≠ [] ∧
      (RF.splitPairs X y c.f c.thr).2 ≠ [] := by
  intro c hc
  rcases acc with _ | c0
  · simp only [RF.stepCand] at hc
    split at hc
    · cases hc
    · rename_i hne
      push_neg at hne
      rw [Option.some.injEq] at hc
      rw [← hc]
      exact ⟨fun hh => hne.1 (by rw [hh]; rfl),
             fun hh => hne.2 (by rw [hh]; rfl)⟩
  · simp only [RF.stepCand] at hc
    split at hc
    · exact hacc c hc
    · rename_i hne
      push_neg at hne
      split at hc
      · rw [Option.some.injEq] at hc
        rw [← hc]
        exact ⟨fun hh => hne.1 (by rw [hh]; rfl),
               fun hh => hne.2 (by rw [hh]; rfl)⟩
      · exact hacc c hc

theorem findBestSplit_sound (X : List (List ℚ)) (y : List String)
    (idxs : List Nat) :
    ∀ c, RF.findBestSplit X y idxs = some c →
      (RF.splitPairs X y c.f c.thr).1 ≠ [] ∧
      (RF.splitPairs X y c.f c.thr).2 ≠ [] := by
  unfold RF.findBestSplit
  refine foldl_preserve
    (fun acc : Option RF.Cand => ∀ c, acc = some c →
      (RF.splitPairs X y c.f c.thr).1 ≠ [] ∧
      (RF.splitPairs X y c.f c.thr).2 ≠ [])
    _ idxs none (by intro c h; cases h) ?_
  intro b f hf hb
  refine foldl_preserve
    (fun acc : Option RF.Cand => ∀ c, acc = some c →
      (RF.splitPairs X y c.f c.thr).1 ≠ [] ∧
      (RF.splitPairs X y c.f c.thr).2 ≠ [])
    _ _ b hb ?_
  intro b' t ht hb'
  exact stepCand_preserve X y (RF.gini y) f b' t hb'

theorem predictOne_mem_treeLabels (tr : RF.RTree) (x : List ℚ) :
    RF.predictOne tr x ∈ RF.treeLabels tr := by
  induction tr with
  | leaf p => simp [RF.predictOne, RF.treeLabels]
  | node f t l r ihl ihr =>
    rw [RF.predictOne, RF.treeLabels]
    by_cases hc : x.getD f 0 ≤ t
    · rw [if_pos hc]
      exact List.mem_append_left _ ihl
    · rw [if_neg hc]
      exact List.mem_append_right _ ihr

theorem buildTreeR_labels (ms : Nat) (idxs : List Nat) :
    ∀ (fuel : Nat) (X : List (List ℚ)) (y : List String), y ≠ [] →
      ∀ lab ∈ RF.treeLabels (RF.buildTreeR ms idxs fuel X y), lab ∈ y := by
  intro fuel
  induction fuel with
  | zero =>
    intro X y hy lab hlab
    simp only [RF.buildTreeR, RF.treeLabels, List.mem_singleton] at hlab
    rw [hlab]
    exact majorityClassR_mem y hy
  | succ fuel ih =>
    intro X y hy lab hlab
    simp only [RF.buildTreeR] at hlab
    split at hlab
    · simp only [RF.treeLabels, List.mem_singleton] at hlab
      rw [hlab]
      exact majorityClassR_mem y hy
    split at hlab
    · simp only [RF.treeLabels, List.mem_singleton] at hlab
      rw [hlab]
      exact majorityClassR_mem y hy
    rename_i hcnone c hc
    split at hlab
    · simp only [RF.treeLabels, List.mem_singleton] at hlab
      rw [hlab]
      exact majorityClassR_mem y hy
    · rename_i hgain
      have hsound := findBestSplit_sound X y idxs c hc
      simp only [RF.treeLabels] at hlab
      rcases List.mem_append.1 hlab with hside | hside
      · have hne : (RF.splitPairs X y c.f c.thr).1.map
            (fun p => p.2) ≠ [] := by
          intro hh
          exact hsound.1 (List.map_eq_nil.1 hh)
        have hin := ih _ _ hne lab hside
        obtain ⟨p, hp, hpl⟩ := List.mem_map.1 hin
        rw [← hpl]
        exact splitPairs_left_sub X y c.f c.thr p hp
      · have hne : (RF.splitPairs X y c.f c.thr).2.map
            (fun p => p.2) ≠ [] := by
          intro hh
          exact hsound.2 (List.map_eq_nil.1 hh)
        have hin := ih _ _ hne lab hside
        obtain ⟨p, hp, hpl⟩ := List.mem_map.1 hin
        rw [← hpl]
        exact splitPairs_right_sub X y c.f c.thr p hp

theorem sum_map_indicator {α : Type} [DecidableEq α] (a : α) :
    ∀ (s : List α), s.Nodup → a ∈ s →
      (s.map (fun c => if c = a then (1:ℕ) else 0)).sum = 1 := by
  intro s
  induction s with
  | nil => intro _ h; cases h
  | cons b s ih =>
    intro hnd hmem
    rw [List.map_cons, List.sum_cons]
    by_cases hba : b = a
    · subst hba
      rw [if_pos rfl]
      have hnotin : b ∉ s := (List.nodup_cons.1 hnd).1
      have hzero : (s.map (fun c => if c = b then (1:ℕ) else 0)).sum = 0 := by
        apply List.sum_eq_zero
        intro x hx
        obtain ⟨c, hcm, hcx⟩ := List.mem_map.1 hx
        rw [← hcx, if_neg]
        intro hcb
        rw [hcb] at hcm
        exact hnotin hcm
      rw [hzero]
    · rw [if_neg hba]
      have hmem' : a ∈ s := by
        rcases List.mem_cons.1 hmem with hh | hh
        · exact absurd hh.symm hba
        · exact hh
      rw [ih (List.nodup_cons.1 hnd).2 hmem']

theorem sum_map_add_nat {α : Type} (s : List α) (f g : α → ℕ) :
    (s.map (fun c => f c + g c)).sum = (s.map f).sum + (s.map g).sum := by
  induction s with
  | nil => rfl
  | cons b s ih =>
    simp only [List.map_cons, List.sum_cons, ih]
    omega

theorem sum_map_count {α : Type} [DecidableEq α] :
    ∀ (l s : List α), s.Nodup → (∀ v ∈ l, v ∈ s) →
      (s.map (fun c => l.count c)).sum = l.length := by
  intro l
  induction l with
  | nil =>
    intro s _ _
    simp
  | cons a l ih =>
    intro s hnd hsub
    have hcnt : ∀ c : α, (a :: l).count c =
        l.count c + (if c = a then (1:ℕ) else 0) := by
      intro c
      rw [List.count_cons]
      by_cases hac : c = a
      · simp [hac]
      · have hca : ¬ a = c := fun h => hac h.symm
        simp [hac, hca]
    have hrw : (s.map (fun c => (a :: l).count c)) =
        (s.map (fun c => l.count c + (if c = a then (1:ℕ) else 0))) := by
      apply List.map_congr_left
      intro c _
      exact hcnt c
    rw [hrw, sum_map_add_nat,
      ih s hnd (fun v hv => hsub v (List.mem_cons_of_mem a hv)),
      sum_map_indicator a s hnd (hsub a (List.mem_cons_self a l))]
    simp

theorem map_snd_pairs {α β : Type} (u : List α) (g : α → β) :
    (u.map (fun v => (v, g v))).map Prod.snd = u.map g := by
  induction u with
  | nil => rfl
  | cons a as ih => simp [ih]

theorem sum_map_cast_div {α : Type} (s : List α) (f : α → ℕ) (N : ℚ) :
    (s.map (fun c => ((f c : ℕ) : ℚ) / N)).sum =
      (((s.map f).sum : ℕ) : ℚ) / N := by
  induction s with
  | nil => simp
  | cons b s ih =>
    simp only [List.map_cons, List.sum_cons, ih, Nat.cast_add]
    rw [add_div]

/-- C3: for a forest trained by `fit` on labels `y` (class set = distinct
values of `y`, nonempty data, positive tree count), `predictProba` of any row
has key list exactly the class list, value `votes/nTrees` for each class
(zero-vote classes included), and total probability mass exactly 1. -/
theorem C3_predict_proba_distribution :
    ∀ (cfg : RF.RFConfig) (boot sel : Nat → Nat → Nat) (X : List (List ℚ))
      (y : List String) (names : List String) (x : List ℚ),
      X ≠ [] → y.length = X.length → 0 < cfg.nTrees →
      ((RF.predictProba (RF.rfFit cfg boot sel X y names) x).map Prod.fst =
        uniqueList y) ∧
      (∀ p ∈ RF.predictProba (RF.rfFit cfg boot sel X y names) x,
        p.2 = ((RF.rfVotes (RF.rfFit cfg boot sel X y names) x).count p.1 : ℚ)
          / (cfg.nTrees : ℚ)) ∧
      ((RF.predictProba (RF.rfFit cfg boot sel X y names) x).map
          Prod.snd).sum = 1 := by
  intro cfg boot sel X y names x hX hlen hn
  have hXlen : X.length ≠ 0 := fun h => hX (List.length_eq_zero.1 h)
  have hy : y ≠ [] := by
    intro h
    rw [h] at hlen
    exact hX (List.length_eq_zero.1 hlen.symm)
  have hvotes_mem : ∀ v ∈ RF.rfVotes (RF.rfFit cfg boot sel X y names) x,
      v ∈ uniqueList y := by
    intro v hv
    unfold RF.rfVotes at hv
    obtain ⟨pr, hpr, hprv⟩ := List.mem_map.1 hv
    obtain ⟨tr, sub⟩ := pr
    have htr : tr ∈ (RF.rfFit cfg boot sel X y names).trees :=
      (List.of_mem_zip hpr).1
    unfold RF.rfFit at htr
    dsimp only at htr
    obtain ⟨pair0, hpair0, hp1⟩ := List.mem_map.1 htr
    obtain ⟨t0, _, hmk⟩ := List.mem_map.1 hpair0
    rw [← hmk] at hp1
    dsimp only at hp1
    rw [← hprv]
    dsimp only
    apply (mem_uniqueList y _).2
    have hmem := predictOne_mem_treeLabels tr (sub.map (fun f => x.getD f 0))
    rw [← hp1] at hmem
    have hbootne : (((List.range X.length).map
        (fun i => boot t0 i % X.length)).map (fun i => y.getD i "")) ≠ [] := by
      intro h
      have hlh := congrArg List.length h
      simp at hlh
      exact hX hlh
    have hvy := buildTreeR_labels _ _ _ _ _ hbootne _ hmem
    obtain ⟨i, hi, hib⟩ := List.mem_map.1 hvy
    obtain ⟨i0, _, hii⟩ := List.mem_map.1 hi
    have hilt : i < y.length := by
      rw [← hii, hlen]
      exact Nat.mod_lt _ (Nat.pos_of_ne_zero hXlen)
    have hmemy : y.getD i "" ∈ y := getD_mem_of_lt y "" i hilt
    rw [hib] at hmemy
    rw [hp1] at hmemy
    exact hmemy
  have hvotes_len : (RF.rfVotes (RF.rfFit cfg boot sel X y names) x).length =
      cfg.nTrees := by
    unfold RF.rfVotes RF.rfFit
    simp
  refine ⟨?_, ?_, ?_⟩
  · exact map_fst_pairs (uniqueList y) _
  · intro p hp
    unfold RF.predictProba at hp
    obtain ⟨c, _, hcp⟩ := List.mem_map.1 hp
    rw [← hcp]
    rfl
  · rw [show (RF.predictProba (RF.rfFit cfg boot sel X y names) x).map
        Prod.snd =
      (uniqueList y).map (fun c =>
        (((RF.rfVotes (RF.rfFit cfg boot sel X y names) x).count c : ℕ) : ℚ) /
          (cfg.nTrees : ℚ)) from map_snd_pairs (uniqueList y) _]
    rw [sum_map_cast_div]
    rw [sum_map_count _ _ (nodup_uniqueList y) hvotes_mem]
    rw [hvotes_len]
    exact div_self (Nat.cast_ne_zero.2 hn.ne')

/-- Witness for C3 on a concrete two-row training set. -/
theorem C3_predict_proba_distribution_witness :
    ((RF.predictProba (RF.rfFit RF.mkRandomForestClassifier (fun _ _ => 0)
        (fun _ _ => 0) [[1], [2]] ["a", "b"] ["f"]) [1]).map Prod.fst =
      uniqueList ["a", "b"]) ∧
    (∀ p ∈ RF.predictProba (RF.rfFit RF.mkRandomForestClassifier
        (fun _ _ => 0) (fun _ _ => 0) [[1], [2]] ["a", "b"] ["f"]) [1],
      p.2 = ((RF.rfVotes (RF.rfFit RF.mkRandomForestClassifier (fun _ _ => 0)
        (fun _ _ => 0) [[1], [2]] ["a", "b"] ["f"]) [1]).count p.1 : ℚ)
          / ((RF.mkRandomForestClassifier).nTrees : ℚ)) ∧
    ((RF.predictProba (RF.rfFit RF.mkRandomForestClassifier (fun _ _ => 0)
        (fun _ _ => 0) [[1], [2]] ["a", "b"] ["f"]) [1]).map
        Prod.snd).sum = 1 :=
  C3_predict_proba_distribution RF.mkRandomForestClassifier (fun _ _ => 0)
    (fun _ _ => 0) [[1], [2]] ["a", "b"] ["f"] [1]
    (List.cons_ne_nil _ _) rfl (by rw [show RF.mkRandomForestClassifier.nTrees = 10 from rfl]; norm_num)
